import Mathlib

/-!
# Shallow embedding of `src/New_Alarm_Mutex.c`

This file embeds the data model and operations of the multi-threaded alarm
program `New_Alarm_Mutex.c` and proves properties about them.

Modelling conventions:
* `alarm_t` becomes the structure `Alarm`.  The C `link` pointer is replaced
  by membership in a `List Alarm`; the field `id` models the node's heap
  address, so that pointer comparisons (`temp_alarm == alarm`) become
  comparisons of `id`.
* `time_t` values and thread ids are modelled as `Nat` (the program only ever
  stores non-negative values in them: `alarm_second` is an `unsigned int` and
  `time(NULL)` is seconds since the epoch).
* Each loop of the C source becomes a structurally recursive function over the
  list it traverses; the line numbers of the loop are cited at the definition.
* The worker thread's interaction with real time is modelled by a small
  transition system (`wstep`) whose events carry the value of `time(NULL)`
  observed by the corresponding call; the clock is nondecreasing across
  events, as real time is.
-/

/-- The `alarm_tag` structure (`New_Alarm_Mutex.c:26-33`).  `id` models the
node's address; `status` is `0` when the request is Unassigned and holds the
owning thread's id (`pthread_self()`) once claimed. -/
structure Alarm where
  id : Nat
  seconds : Nat
  time : Nat
  message_type : Nat
  status : Nat
  message : String
deriving DecidableEq

/-- The `alarm_thread_tag` registry node (`New_Alarm_Mutex.c:41-45`):
one entry per created worker thread. -/
structure AlarmThreadReg where
  thread_id : Nat
  message_type : Nat
deriving DecidableEq

/-- `alarm_insert` (`New_Alarm_Mutex.c:50-103`): walks the shared list and
inserts the new alarm before the first node whose `message_type` is `>=` the
new alarm's (`New_Alarm_Mutex.c:66`); if the end is reached the alarm is
appended (`New_Alarm_Mutex.c:78-81`). -/
def alarm_insert (alarm : Alarm) : List Alarm → List Alarm
  | [] => [alarm]
  | next :: rest =>
    if alarm.message_type ≤ next.message_type then
      alarm :: next :: rest
    else
      next :: alarm_insert alarm rest

/-- `alarm_remover` (`New_Alarm_Mutex.c:108-142`): walks the shared list and
unlinks the node pointer-equal to its argument (`temp_alarm==alarm`,
`New_Alarm_Mutex.c:119`).  After unlinking, the removed node's `link` is set
to `NULL` (`New_Alarm_Mutex.c:126`), so the loop's update
`temp_alarm = temp_alarm->link` terminates the traversal: the function removes
at most the first node whose address equals the argument's. -/
def alarm_remover (alarm : Alarm) : List Alarm → List Alarm
  | [] => []
  | temp :: rest =>
    if temp.id = alarm.id then rest
    else temp :: alarm_remover alarm rest

/-- The scan at the top of the worker loop (`New_Alarm_Mutex.c:210-224`):
starting from `alarm_list`, skip entries while
`alarm->message_type != type_of_thread || alarm->status != 0`; the first
entry of the worker's type that is still Unassigned is returned, `none`
otherwise. -/
def scan_list (type_of_thread : Nat) : List Alarm → Option Alarm
  | [] => none
  | alarm :: rest =>
    if alarm.message_type = type_of_thread ∧ alarm.status = 0 then
      some alarm
    else
      scan_list type_of_thread rest

/-- What the worker does after the scan.  `wait` is the branch
`if (alarm == NULL && thread_alarm_list==NULL)` (`New_Alarm_Mutex.c:231-240`)
that blocks on the condition variable and emits nothing; `proceed found` is
the `else` branch (`New_Alarm_Mutex.c:244-316`), which claims `found` when it
is `some` and then evaluates the private sublist. -/
inductive WAction where
  | wait
  | proceed (found : Option Alarm)
deriving DecidableEq

/-- The worker's branch decision (`New_Alarm_Mutex.c:210-244`): scan the
shared list for a matching Unassigned entry; block exactly when the scan
found nothing and the private sublist is empty. -/
def worker_decision (type_of_thread : Nat) (shared sublist : List Alarm) : WAction :=
  let alarm := scan_list type_of_thread shared
  if alarm = none ∧ sublist = [] then .wait else .proceed alarm

/-- The claim-time update of a claimed alarm: `alarm->status=pthread_self()`
(`New_Alarm_Mutex.c:259`) followed by `alarm->time=time(NULL)+alarm->seconds`
(`New_Alarm_Mutex.c:265`).  Note that line 265 overwrites the deadline that
`main` computed at schedule time (`New_Alarm_Mutex.c:533`). -/
def claim_update (now wid : Nat) (alarm : Alarm) : Alarm :=
  { alarm with status := wid, time := now + alarm.seconds }

/-- The sorted insertion of a claimed alarm into the worker's private sublist
(`New_Alarm_Mutex.c:266-288`): insert before the first node whose `time` is
`>=` the new alarm's (`New_Alarm_Mutex.c:273`), else append. -/
def thread_insert (alarm : Alarm) : List Alarm → List Alarm
  | [] => [alarm]
  | next :: rest =>
    if alarm.time ≤ next.time then
      alarm :: next :: rest
    else
      next :: thread_insert alarm rest

/-- Removal of a fired alarm from the private sublist
(`New_Alarm_Mutex.c:302-305`): `current_alarm` is the head of
`thread_alarm_list`, and the list is set to `current_alarm->link`. -/
def fire_remove : List Alarm → List Alarm
  | [] => []
  | _ :: rest => rest

/-- The construction of a new request on a Type A command
(`New_Alarm_Mutex.c:529-537`): `alarm->time = time(NULL) + alarm->seconds`,
`status = 0` (Unassigned). -/
def schedule_alarm (now seconds message_type : Nat) (msg : String) (id : Nat) : Alarm :=
  { id := id, seconds := seconds, time := now + seconds,
    message_type := message_type, status := 0, message := msg }

/-- The alarm-purge loop of the Type C (terminate) command
(`New_Alarm_Mutex.c:481-501`): remove and `free` every list node whose
`message_type` equals the terminated type — the node's `status` is never
inspected.  Returns `(remaining list, freed nodes)`. -/
def purge_loop (terminated_type : Nat) : List Alarm → List Alarm × List Alarm
  | [] => ([], [])
  | temp :: rest =>
    let (remaining, freed) := purge_loop terminated_type rest
    if temp.message_type = terminated_type then
      (remaining, temp :: freed)
    else
      (temp :: remaining, freed)

/-- The thread-cancellation loop of the Type C command
(`New_Alarm_Mutex.c:443-470`): cancel and unlink every registry node of the
terminated type; the Boolean is the contribution of this loop to the
`contains` flag (`New_Alarm_Mutex.c:445`). -/
def cancel_threads_loop (terminated_type : Nat) :
    List AlarmThreadReg → List AlarmThreadReg × Bool
  | [] => ([], false)
  | temp :: rest =>
    let (remaining, c) := cancel_threads_loop terminated_type rest
    if temp.message_type = terminated_type then
      (remaining, true)
    else
      (temp :: remaining, c)

/-- The whole Type C (terminate / retire) command (`New_Alarm_Mutex.c:435-509`):
cancel all workers of the type, purge all queued alarms of the type, and
report the flag `contains`, which is set to `1` both in the thread loop
(`New_Alarm_Mutex.c:445`) and in the alarm-purge loop
(`New_Alarm_Mutex.c:483`).  Returns `(contains, remaining threads,
remaining alarms)`. -/
def retire (terminated_type : Nat) (threads : List AlarmThreadReg)
    (alarms : List Alarm) : Bool × List AlarmThreadReg × List Alarm :=
  let (threads', c1) := cancel_threads_loop terminated_type threads
  let (alarms', freed) := purge_loop terminated_type alarms
  (c1 || !freed.isEmpty, threads', alarms')

/-- `thread_terminate_cleanup` (`New_Alarm_Mutex.c:146-174`): frees every node
of the list it receives as argument; the function returns the multiset of
nodes it frees. -/
def thread_terminate_cleanup (list : List Alarm) : List Alarm := list

/-- The argument bound by `pthread_cleanup_push(thread_terminate_cleanup,
(void*)thread_alarm_list)` (`New_Alarm_Mutex.c:191`).  In C the argument is
evaluated at the point of the push, where `thread_alarm_list` was just set to
`NULL` (`New_Alarm_Mutex.c:187`); the pointer later stored into
`thread_alarm_list` by the loop is not seen by the handler. -/
def cleanup_arg_at_push : List Alarm := []

/-- The set of nodes actually freed when a worker is canceled: the cleanup
handler runs on the value captured at push time. -/
def freed_at_cancel : List Alarm := thread_terminate_cleanup cleanup_arg_at_push

/-! ## The worker thread as a transition system

The events of a single worker bound to one message type, each carrying the
value of `time(NULL)` observed by the corresponding code: `claim now a`
models `New_Alarm_Mutex.c:255-293` (claim a scanned alarm, overwrite its
deadline per line 265, insert it into the private sublist), and `fire now`
models `New_Alarm_Mutex.c:298-309` (the head of the sublist is printed and
freed once `current_alarm->time <= now`).  The `clock` field records the last
observed time; real time is nondecreasing, so an event whose `now` is below
the clock is rejected. -/

/-- State of one worker thread: its private deadline-ordered sublist
(`thread_alarm_list`), the alarms it has fired so far in firing order, and
the last observed value of `time(NULL)`. -/
structure WorkerState where
  sublist : List Alarm
  fired : List Alarm
  clock : Nat
deriving DecidableEq

/-- Events of a single worker (values of `time(NULL)` are carried). -/
inductive WEvent where
  | claim (now : Nat) (alarm : Alarm)
  | fire (now : Nat)
deriving DecidableEq

/-- One step of the worker loop.  `claim` applies lines 259-288 of
`New_Alarm_Mutex.c`: the deadline is recomputed as `now + seconds`
(line 265) and the alarm is inserted into the sorted sublist (lines
270-288).  `fire` applies lines 298-309: enabled only when the sublist's
head is due (`current_alarm->time <= now`, line 299); the head is appended
to the fired log and removed (lines 302-306). -/
def wstep : WorkerState → WEvent → Option WorkerState
  | s, .claim now alarm =>
    if s.clock ≤ now then
      some { sublist := thread_insert { alarm with time := now + alarm.seconds } s.sublist,
             fired := s.fired, clock := now }
    else none
  | s, .fire now =>
    if s.clock ≤ now then
      match s.sublist with
      | [] => none
      | current :: rest =>
        if current.time ≤ now then
          some { sublist := rest, fired := s.fired ++ [current], clock := now }
        else none
    else none

/-- Run a list of events from a state, failing if any step is disabled. -/
def wrun (evts : List WEvent) (s : WorkerState) : Option WorkerState :=
  match evts with
  | [] => some s
  | e :: rest =>
    match wstep s e with
    | some s' => wrun rest s'
    | none => none

/-- A fresh worker: empty sublist (`New_Alarm_Mutex.c:187`), nothing fired. -/
def initWorker : WorkerState := { sublist := [], fired := [], clock := 0 }

/-- The messages of the fired alarms, in firing order. -/
def firedMessages (s : WorkerState) : List String := s.fired.map (·.message)

/-- The deadlines (`time` fields) of the fired alarms, in firing order. -/
def firedTimes (s : WorkerState) : List Nat := s.fired.map (·.time)

/-! ## The claim race (two workers of the same type)

In `alarm_thread`, the scan (`New_Alarm_Mutex.c:210-224`) happens with the
mutex held, but the mutex is released at line 249 *before* the claimed alarm
is marked Owned at line 259 and removed at line 263.  The lock section of the
scan only reads the shared list, so a second worker of the same type that
runs its own scan between the first worker's unlock (line 249) and its status
write (line 259) observes the identical list. -/

/-- Outcome of the interleaving in which both workers of type
`type_of_thread` complete their scan-and-unlock sections
(`New_Alarm_Mutex.c:203-249`) before either executes line 259: each worker's
claimed node id. -/
structure RaceOutcome where
  w1_claimed : Option Nat
  w2_claimed : Option Nat
deriving DecidableEq

/-- The interleaving itself.  Worker 1 locks, scans and unlocks; since its
lock section did not modify the shared list, worker 2's scan runs on the same
list and finds the same first Unassigned matching entry. -/
def race_both_scan_first (type_of_thread : Nat) (shared : List Alarm) : RaceOutcome :=
  let a1 := scan_list type_of_thread shared
  let a2 := scan_list type_of_thread shared
  { w1_claimed := a1.map (·.id), w2_claimed := a2.map (·.id) }

/-! ## Concrete values used in the theorems -/

/-- An Unassigned request of message type 1 sitting in the shared queue. -/
def sharedEntry : Alarm :=
  { id := 1, seconds := 5, time := 5, message_type := 1, status := 0, message := "e" }

/-- A request of type 1 already claimed by a worker (`status = 77 ≠ 0`); it is
still linked in the shared list, as happens between lines 259 and 263 of
`New_Alarm_Mutex.c`. -/
def ownedEntry : Alarm :=
  { id := 3, seconds := 5, time := 10, message_type := 1, status := 77, message := "owned" }

/-- An alarm owned by a worker and sitting in its private sublist when the
worker is canceled. -/
def ownedByCanceled : Alarm :=
  { id := 4, seconds := 9, time := 9, message_type := 2, status := 55, message := "mine" }


/-- Ordering of alarms by the `time` field (the private sublist's order). -/
def timeLe (x y : Alarm) : Prop := x.time ≤ y.time

/-- Ordering of alarms by `message_type` (the shared queue's order). -/
def typeLe (x y : Alarm) : Prop := x.message_type ≤ y.message_type

/-- Invariant of the worker transition system: the private sublist is sorted
by deadline, the fired log is nondecreasing in the `time` field, every fired
deadline is in the past, and every fired deadline is at most every deadline
still pending in the sublist. -/
def WInv (s : WorkerState) : Prop :=
  List.Sorted timeLe s.sublist ∧
  List.Sorted (· ≤ ·) (firedTimes s) ∧
  (∀ f ∈ s.fired, f.time ≤ s.clock) ∧
  (∀ f ∈ s.fired, ∀ b ∈ s.sublist, f.time ≤ b.time)

/-- A request of type 5 scheduled first (it is already in the queue). -/
def oldTypeFive : Alarm :=
  { id := 11, seconds := 0, time := 100, message_type := 5, status := 0, message := "first" }

/-- A request of type 5 scheduled later. -/
def newTypeFive : Alarm :=
  { id := 12, seconds := 0, time := 101, message_type := 5, status := 0, message := "second" }

/-- Scheduled at time 0 with delay 2: schedule-time deadline 2. -/
def earlyLong : Alarm := schedule_alarm 0 2 1 "a" 21

/-- Scheduled at time 3 with delay 1: schedule-time deadline 4.  Because
`alarm_insert` places it before `earlyLong` (same type, inserted later), a
worker that starts at time 3 claims it first. -/
def lateShort : Alarm := schedule_alarm 3 1 1 "b" 22

/-- A request used in witness instantiations of the worker machine. -/
def plainRequest : Alarm := schedule_alarm 0 5 1 "x" 9

/-! ## Theorems -/

/-- C1: the code does NOT perform scan, removal and Owned-marking under a
single lock hold.  The scan's lock section (`New_Alarm_Mutex.c:203-249`)
only reads the shared list and is separated from the status write
(line 259) by the unlock at line 249.  Concretely: with one Unassigned
request of type 1 in the queue and two workers of type 1, the interleaving
in which both workers complete their scan sections before either marks the
entry lets both observe the entry as Unassigned and both claim node 1 —
refuting the single-owner guarantee as a property of this code. -/
theorem both_workers_claim_same_entry :
    (race_both_scan_first 1 [sharedEntry]).w1_claimed = some 1 ∧
    (race_both_scan_first 1 [sharedEntry]).w2_claimed = some 1 ∧
    sharedEntry.status = 0 := by
  refine ⟨rfl, rfl, rfl⟩

/-- C2: the deadline IS recomputed after scheduling.  A request scheduled at
time 0 with delay 5 is constructed with deadline 5 (`New_Alarm_Mutex.c:533`),
but when a worker claims it at time 3, line 265 overwrites the deadline with
`time(NULL) + seconds = 8`, contradicting "the deadline is not recomputed at
any later point". -/
theorem deadline_recomputed_at_claim :
    (schedule_alarm 0 5 1 "m" 7).time = 5 ∧
    (claim_update 3 42 (schedule_alarm 0 5 1 "m" 7)).time = 8 := by
  refine ⟨rfl, rfl⟩

/-- C3: the retirement purge loop (`New_Alarm_Mutex.c:481-501`) never
inspects `status`: an entry of the retired type that is already Owned
(`status = 77`) but still linked in the shared list (as between lines 259
and 263) is removed and freed by the retirement caller — the same entry the
owning worker's cleanup path would free, the double free the protocol is
meant to exclude.  Moreover the code reports only the Boolean `contains`
flag, not a count of removed entries. -/
theorem purge_frees_owned_entry :
    ownedEntry.status ≠ 0 ∧
    (purge_loop 1 [ownedEntry]).2 = [ownedEntry] ∧
    (purge_loop 1 [ownedEntry]).1 = [] := by
  refine ⟨by decide, rfl, rfl⟩

/-- C4: the cleanup handler frees nothing.  `pthread_cleanup_push` captures
the value of `thread_alarm_list` at the push (`New_Alarm_Mutex.c:191`),
which is `NULL` (line 187); at cancellation the handler therefore walks the
empty list, and an alarm still in the worker's private sublist at that
moment is freed by nobody — a leak, contradicting "frees every entry still
in that worker's private sublist at the moment of cancellation". -/
theorem cleanup_frees_nothing :
    freed_at_cancel = [] ∧
    ownedByCanceled ∈ [ownedByCanceled] ∧
    ownedByCanceled ∉ freed_at_cancel := by
  refine ⟨rfl, by decide, by decide⟩

/-! ### Helper lemmas -/

theorem mem_thread_insert {a b : Alarm} : ∀ {l : List Alarm},
    b ∈ thread_insert a l → b = a ∨ b ∈ l := by
  intro l
  induction l with
  | nil => simp [thread_insert]
  | cons x xs ih =>
    simp only [thread_insert]
    split
    · intro h
      rcases List.mem_cons.mp h with h1 | h1
      · exact Or.inl h1
      · exact Or.inr h1
    · intro h
      rcases List.mem_cons.mp h with h1 | h1
      · exact Or.inr (h1 ▸ List.mem_cons_self x xs)
      · rcases ih h1 with h2 | h2
        · exact Or.inl h2
        · exact Or.inr (List.mem_cons_of_mem x h2)

theorem sorted_thread_insert (a : Alarm) {l : List Alarm}
    (h : List.Sorted timeLe l) : List.Sorted timeLe (thread_insert a l) := by
  induction l with
  | nil => simp [thread_insert]
  | cons x xs ih =>
    rw [List.sorted_cons] at h
    simp only [thread_insert]
    split
    · rename_i hle
      rw [List.sorted_cons]
      refine ⟨?_, List.sorted_cons.mpr h⟩
      intro b hb
      rcases List.mem_cons.mp hb with h1 | h1
      · subst h1; exact hle
      · exact le_trans hle (h.1 b h1)
    · rename_i hgt
      rw [List.sorted_cons]
      refine ⟨?_, ih h.2⟩
      intro b hb
      rcases mem_thread_insert hb with h1 | h1
      · subst h1; exact le_of_not_le hgt
      · exact h.1 b h1

theorem mem_alarm_insert {a b : Alarm} : ∀ {l : List Alarm},
    b ∈ alarm_insert a l → b = a ∨ b ∈ l := by
  intro l
  induction l with
  | nil => simp [alarm_insert]
  | cons x xs ih =>
    simp only [alarm_insert]
    split
    · intro h
      rcases List.mem_cons.mp h with h1 | h1
      · exact Or.inl h1
      · exact Or.inr h1
    · intro h
      rcases List.mem_cons.mp h with h1 | h1
      · exact Or.inr (h1 ▸ List.mem_cons_self x xs)
      · rcases ih h1 with h2 | h2
        · exact Or.inl h2
        · exact Or.inr (List.mem_cons_of_mem x h2)

theorem sorted_alarm_insert (a : Alarm) {l : List Alarm}
    (h : List.Sorted typeLe l) : List.Sorted typeLe (alarm_insert a l) := by
  induction l with
  | nil => simp [alarm_insert]
  | cons x xs ih =>
    rw [List.sorted_cons] at h
    simp only [alarm_insert]
    split
    · rename_i hle
      rw [List.sorted_cons]
      refine ⟨?_, List.sorted_cons.mpr h⟩
      intro b hb
      rcases List.mem_cons.mp hb with h1 | h1
      · subst h1; exact hle
      · exact le_trans hle (h.1 b h1)
    · rename_i hgt
      rw [List.sorted_cons]
      refine ⟨?_, ih h.2⟩
      intro b hb
      rcases mem_alarm_insert hb with h1 | h1
      · subst h1; exact le_of_not_le hgt
      · exact h.1 b h1

theorem alarm_insert_split (a : Alarm) : ∀ (l : List Alarm),
    ∃ l₁ l₂, l = l₁ ++ l₂ ∧ alarm_insert a l = l₁ ++ a :: l₂ ∧
      ∀ x ∈ l₁, x.message_type < a.message_type := by
  intro l
  induction l with
  | nil => exact ⟨[], [], rfl, rfl, by simp⟩
  | cons x xs ih =>
    by_cases hle : a.message_type ≤ x.message_type
    · exact ⟨[], x :: xs, rfl, by simp [alarm_insert, hle], by simp⟩
    · obtain ⟨l₁, l₂, h1, h2, h3⟩ := ih
      refine ⟨x :: l₁, l₂, by simp [h1], ?_, ?_⟩
      · simp [alarm_insert, hle, h2]
      · intro y hy
        rcases List.mem_cons.mp hy with h4 | h4
        · subst h4; omega
        · exact h3 y h4

theorem scan_list_eq_none_iff (t : Nat) : ∀ (l : List Alarm),
    scan_list t l = none ↔ ∀ a ∈ l, a.message_type ≠ t ∨ a.status ≠ 0 := by
  intro l
  induction l with
  | nil => simp [scan_list]
  | cons x xs ih =>
    simp only [scan_list]
    split
    · rename_i hx
      simp only [reduceCtorEq, false_iff, not_forall]
      exact ⟨x, List.mem_cons_self x xs, by tauto⟩
    · rename_i hx
      rw [ih]
      constructor
      · intro h a ha
        rcases List.mem_cons.mp ha with h1 | h1
        · subst h1; tauto
        · exact h a h1
      · intro h a ha
        exact h a (List.mem_cons_of_mem x ha)

/-! ### Shared queue insertion (C5) -/

/-- C5 counterexample: `oldTypeFive` was inserted earlier and is still in the
queue; inserting `newTypeFive` (same message type 5) places it BEFORE the
older request, because `alarm_insert` stops at the first node with
`message_type >= 5` (`New_Alarm_Mutex.c:66`) — refuting "placed after every
request of type T that was inserted earlier". -/
theorem new_request_inserted_before_older_same_type :
    alarm_insert newTypeFive [oldTypeFive] = [newTypeFive, oldTypeFive] ∧
    oldTypeFive.message_type = newTypeFive.message_type := by
  refine ⟨rfl, rfl⟩

/-- C5 amended: every insert keeps the shared queue ordered (nondecreasing)
by message type, but ties are broken in REVERSE arrival order: the new
request is placed before every queued request of its own type (the skipped
prefix consists exactly of entries of strictly smaller type). -/
theorem alarm_insert_sorted_and_new_first (a : Alarm) (l : List Alarm)
    (h : List.Sorted typeLe l) :
    List.Sorted typeLe (alarm_insert a l) ∧
    ∃ l₁ l₂, l = l₁ ++ l₂ ∧ alarm_insert a l = l₁ ++ a :: l₂ ∧
      ∀ x ∈ l₁, x.message_type < a.message_type :=
  ⟨sorted_alarm_insert a h, alarm_insert_split a l⟩

/-- Witness for the amended C5 theorem at a concrete queue. -/
theorem alarm_insert_sorted_and_new_first_witness :
    List.Sorted typeLe (alarm_insert newTypeFive [oldTypeFive]) ∧
    ∃ l₁ l₂, [oldTypeFive] = l₁ ++ l₂ ∧
      alarm_insert newTypeFive [oldTypeFive] = l₁ ++ newTypeFive :: l₂ ∧
      ∀ x ∈ l₁, x.message_type < newTypeFive.message_type :=
  alarm_insert_sorted_and_new_first newTypeFive [oldTypeFive]
    (List.sorted_singleton _)

/-! ### Private sublist order (C8) -/

/-- C8: both sublist-mutating steps of the worker preserve sortedness by
ascending deadline: inserting a newly claimed request
(`New_Alarm_Mutex.c:266-288`) and removing a fired head
(`New_Alarm_Mutex.c:302-305`). -/
theorem sublist_ops_preserve_sorted (a : Alarm) (l : List Alarm)
    (h : List.Sorted timeLe l) :
    List.Sorted timeLe (thread_insert a l) ∧ List.Sorted timeLe (fire_remove l) := by
  refine ⟨sorted_thread_insert a h, ?_⟩
  cases l with
  | nil => simp [fire_remove]
  | cons x xs => exact h.of_cons

/-- Witness for the C8 theorem at a concrete sublist. -/
theorem sublist_ops_preserve_sorted_witness :
    List.Sorted timeLe (thread_insert sharedEntry [ownedEntry]) ∧
    List.Sorted timeLe (fire_remove [ownedEntry]) :=
  sublist_ops_preserve_sorted sharedEntry [ownedEntry] (List.sorted_singleton _)

/-! ### Suspension condition (C9) -/

/-- C9: the worker blocks on the condition variable exactly when its private
sublist is empty AND the fresh scan of the shared list found no Unassigned
entry of its type (`New_Alarm_Mutex.c:231`); in particular a worker whose
type has no matching queued request and which owns nothing takes the `wait`
branch, which claims nothing and fires nothing. -/
theorem worker_waits_iff (type_of_thread : Nat) (shared sublist : List Alarm) :
    worker_decision type_of_thread shared sublist = WAction.wait ↔
      ((∀ a ∈ shared, a.message_type ≠ type_of_thread ∨ a.status ≠ 0) ∧
        sublist = []) := by
  rw [← scan_list_eq_none_iff]
  simp only [worker_decision]
  split
  · rename_i h; simp [h.1, h.2]
  · rename_i h
    simp only [not_and_or] at h
    constructor
    · intro hw; exact absurd hw (by simp)
    · intro hc; exact absurd hc (by tauto)

/-- Witness for the C9 theorem: a freshly created worker of type 1, with an
empty sublist, facing a queue holding only a type-2 request, waits. -/
theorem worker_waits_iff_witness :
    worker_decision 1 [ownedByCanceled] [] = WAction.wait :=
  (worker_waits_iff 1 [ownedByCanceled] []).mpr ⟨by decide, rfl⟩

/-! ### Exactness of `alarm_remover` (C10) -/

/-- C10: on any shared list whose nodes have pairwise distinct addresses (as
heap nodes do), `alarm_remover` removes exactly the nodes pointer-equal to
its argument and leaves every other node unchanged and in the same relative
order — the result is the filter keeping the nodes with a different
address. -/
theorem alarm_remover_removes_exactly (a : Alarm) : ∀ (l : List Alarm),
    (l.map (·.id)).Nodup →
    alarm_remover a l = l.filter (fun x => x.id ≠ a.id) := by
  intro l
  induction l with
  | nil => intro _; rfl
  | cons x xs ih =>
    intro hnd
    rw [List.map_cons, List.nodup_cons] at hnd
    simp only [alarm_remover, List.filter_cons]
    by_cases hx : x.id = a.id
    · have hxs : ∀ y ∈ xs, ¬(y.id = a.id) := by
        intro y hy hya
        apply hnd.1
        rw [hx, ← hya]
        exact List.mem_map_of_mem (·.id) hy
      rw [if_pos hx, if_neg (by simp [hx])]
      rw [List.filter_eq_self.mpr]
      intro y hy
      simpa using hxs y hy
    · rw [if_neg hx, if_pos (by simpa using hx)]
      rw [ih hnd.2]

/-- Witness for the C10 theorem on a concrete two-node list. -/
theorem alarm_remover_removes_exactly_witness :
    alarm_remover sharedEntry [sharedEntry, ownedEntry] =
      [sharedEntry, ownedEntry].filter (fun x => x.id ≠ sharedEntry.id) :=
  alarm_remover_removes_exactly sharedEntry [sharedEntry, ownedEntry] (by decide)

/-! ### Retirement reporting (C7) -/

theorem cancel_threads_loop_eq (t : Nat) : ∀ (l : List AlarmThreadReg),
    cancel_threads_loop t l =
      (l.filter (fun th => !(th.message_type == t)),
       l.any (fun th => th.message_type == t)) := by
  intro l
  induction l with
  | nil => rfl
  | cons x xs ih =>
    simp only [cancel_threads_loop, ih, List.filter_cons, List.any_cons]
    by_cases h : x.message_type = t <;> simp [h]

theorem purge_loop_eq (t : Nat) : ∀ (l : List Alarm),
    purge_loop t l =
      (l.filter (fun a => !(a.message_type == t)),
       l.filter (fun a => a.message_type == t)) := by
  intro l
  induction l with
  | nil => rfl
  | cons x xs ih =>
    simp only [purge_loop, ih, List.filter_cons]
    by_cases h : x.message_type = t <;> simp [h]

theorem filter_isEmpty_eq_not_any {α : Type} (p : α → Bool) : ∀ (l : List α),
    (l.filter p).isEmpty = !l.any p := by
  intro l
  induction l with
  | nil => rfl
  | cons x xs ih =>
    rw [List.filter_cons, List.any_cons]
    cases h : p x <;> simp [h, ih]

/-- C7 counterexample: with NO worker handle registered under type 1 but one
queued request of type 1, the Type C command still reports `contains = true`
(the purge loop sets the same flag, `New_Alarm_Mutex.c:483`), and it removes
the queued request — so it is neither `had_any = false` nor a no-op, refuting
the claim at this input. -/
theorem retire_true_with_no_workers :
    (retire 1 ([] : List AlarmThreadReg) [sharedEntry]).1 = true ∧
    (retire 1 ([] : List AlarmThreadReg) [sharedEntry]).2.2 = [] := by
  refine ⟨rfl, rfl⟩

/-- C7 amended: the Type C command reports `contains = true` iff a worker
handle was registered under the type OR an entry of that type was present in
the shared alarm list; only when both are absent is the report `false`, and
in that case the command is a no-op on both lists. -/
theorem retire_contains_characterization (t : Nat)
    (threads : List AlarmThreadReg) (alarms : List Alarm) :
    (retire t threads alarms).1 =
      (threads.any (fun th => th.message_type == t) ||
        alarms.any (fun a => a.message_type == t)) ∧
    ((retire t threads alarms).1 = false →
      (retire t threads alarms).2.1 = threads ∧
      (retire t threads alarms).2.2 = alarms) := by
  have hr : retire t threads alarms =
      (threads.any (fun th => th.message_type == t) ||
        alarms.any (fun a => a.message_type == t),
       threads.filter (fun th => !(th.message_type == t)),
       alarms.filter (fun a => !(a.message_type == t))) := by
    rw [retire, cancel_threads_loop_eq, purge_loop_eq]
    simp [filter_isEmpty_eq_not_any]
  rw [hr]
  refine ⟨rfl, ?_⟩
  intro h
  simp only [Bool.or_eq_false_iff, List.any_eq_false] at h
  have ht : threads.filter (fun th => !(th.message_type == t)) = threads :=
    List.filter_eq_self.mpr (fun th hth => by simp [h.1 th hth])
  have ha : alarms.filter (fun a => !(a.message_type == t)) = alarms :=
    List.filter_eq_self.mpr (fun a hha => by simp [h.2 a hha])
  exact ⟨ht, ha⟩

/-- Witness for the amended C7 theorem: retiring type 2 with no worker of
type 2 and no queued request of type 2 reports `false` and changes nothing;
the implication hypothesis is discharged at this input. -/
theorem retire_contains_characterization_witness :
    (retire 2 ([] : List AlarmThreadReg) [sharedEntry]).2.1 = [] ∧
    (retire 2 ([] : List AlarmThreadReg) [sharedEntry]).2.2 = [sharedEntry] :=
  (retire_contains_characterization 2 [] [sharedEntry]).2 rfl

/-! ### Fired order (C6) -/

/-- C6 counterexample.  `earlyLong` is scheduled at time 0 with delay 2
(schedule-time deadline 2); `lateShort` at time 3 with delay 1 (schedule-time
deadline 4).  Both have type 1, so `alarm_insert` places `lateShort` before
`earlyLong`, and a single worker of type 1 that starts at time 3 claims
`lateShort` first.  Line 265 recomputes the deadlines to 3+1=4 and 3+2=5, so
the worker fires "b" (schedule deadline 4) and then "a" (schedule deadline 2)
— a firing order that is DECREASING in the deadline of the claim (schedule
time + delay). -/
theorem fired_order_violates_schedule_deadline :
    (wrun [WEvent.claim 3 lateShort, WEvent.claim 3 earlyLong,
           WEvent.fire 4, WEvent.fire 5] initWorker).map firedMessages =
      some ["b", "a"] ∧
    lateShort.time = 4 ∧ earlyLong.time = 2 := by
  refine ⟨rfl, rfl, rfl⟩

theorem wstep_preserves_inv {s s' : WorkerState} {e : WEvent}
    (hinv : WInv s) (hstep : wstep s e = some s') : WInv s' := by
  obtain ⟨hsub, hfired, hclock, hcross⟩ := hinv
  cases e with
  | claim now alarm =>
    simp only [wstep] at hstep
    split at hstep
    · rename_i hle
      injection hstep with h
      subst h
      refine ⟨sorted_thread_insert _ hsub, hfired, ?_, ?_⟩
      · intro f hf; exact le_trans (hclock f hf) hle
      · intro f hf b hb
        rcases mem_thread_insert hb with h1 | h1
        · subst h1
          show f.time ≤ now + alarm.seconds
          have h2 := le_trans (hclock f hf) hle
          omega
        · exact hcross f hf b h1
    · exact absurd hstep (by simp)
  | fire now =>
    simp only [wstep] at hstep
    split at hstep
    · rename_i hle
      split at hstep
      · exact absurd hstep (by simp)
      · rename_i current rest heq
        split at hstep
        · rename_i hdue
          injection hstep with h
          subst h
          rw [heq] at hsub hcross
          rw [List.sorted_cons] at hsub
          refine ⟨hsub.2, ?_, ?_, ?_⟩
          · show List.Sorted (· ≤ ·) ((s.fired ++ [current]).map (·.time))
            rw [List.map_append]
            refine List.pairwise_append.mpr ⟨hfired, List.sorted_singleton _, ?_⟩
            intro x hx y hy
            simp only [List.map_cons, List.map_nil, List.mem_singleton] at hy
            subst hy
            obtain ⟨f, hf, rfl⟩ := List.mem_map.mp hx
            exact hcross f hf current (List.mem_cons_self _ _)
          · intro f hf
            rcases List.mem_append.mp hf with h1 | h1
            · exact le_trans (hclock f h1) hle
            · rw [List.mem_singleton] at h1; subst h1; exact hdue
          · intro f hf b hb
            rcases List.mem_append.mp hf with h1 | h1
            · exact hcross f h1 b (List.mem_cons_of_mem _ hb)
            · rw [List.mem_singleton] at h1; subst h1; exact hsub.1 b hb
        · exact absurd hstep (by simp)
    · exact absurd hstep (by simp)

theorem wrun_preserves_inv : ∀ (evts : List WEvent) {s s' : WorkerState},
    WInv s → wrun evts s = some s' → WInv s' := by
  intro evts
  induction evts with
  | nil =>
    intro s s' h hr
    simp only [wrun, Option.some.injEq] at hr
    subst hr; exact h
  | cons e rest ih =>
    intro s s' h hr
    simp only [wrun] at hr
    cases hstep : wstep s e with
    | none => rw [hstep] at hr; exact absurd hr (by simp)
    | some s1 => rw [hstep] at hr; exact ih (wstep_preserves_inv h hstep) hr

theorem winv_init : WInv initWorker := by
  refine ⟨?_, ?_, ?_, ?_⟩ <;> simp [initWorker, firedTimes, List.Sorted]

/-- C6 amended: for every valid event sequence of a single worker, the fired
order is nondecreasing in the deadline the request carries when it fires —
the deadline recomputed at claim time as claim time + requested delay
(`New_Alarm_Mutex.c:265`), not the schedule-time deadline. -/
theorem fired_order_nondecreasing_in_claim_deadline (evts : List WEvent)
    (s : WorkerState) (h : wrun evts initWorker = some s) :
    List.Sorted (· ≤ ·) (firedTimes s) :=
  (wrun_preserves_inv evts winv_init h).2.1

/-- Witness for the amended C6 theorem on a concrete two-event run. -/
theorem fired_order_nondecreasing_witness :
    List.Sorted (· ≤ ·) (firedTimes
      { sublist := [], fired := [plainRequest], clock := 5 }) :=
  fired_order_nondecreasing_in_claim_deadline
    [WEvent.claim 0 plainRequest, WEvent.fire 5]
    { sublist := [], fired := [plainRequest], clock := 5 } rfl
